import Mathlib

/-!
Shallow embedding of the XMSS/WOTS+ signing core of this repository
(src/include/nil/crypto3/pubkey/xmss/xmss_wots_publickey.hpp and
src/include/nil/crypto3/pubkey/xmss/xmss_signature_operation.hpp),
together with theorems settling the specification's claims about it.

Bytes are lists of naturals (each byte a value below 256 produced by the
byte-level operations; the claims under study do not depend on an upper
bound, the hash functions being opaque parameters).  Components of the
repository that are referenced but whose code is not under src/
(XMSS_Hash, XMSS_WOTS_Parameters::base_w / append_checksum, XMSS_Address,
XMSS_PrivateKey, XMSS_Tools::concat, XMSS_Signature serialization) are
modelled from the specification, as marked on each definition.
-/

namespace XMSSEmbed

/-- A byte string. -/
abbrev Bytes := List Nat

/-- Modelled from the spec: toByte(x, k) is the big-endian k-byte
representation of integer x (section 4.1).  Also models XMSS_Tools::concat,
which appends this representation to a buffer. -/
def toByte (x k : Nat) : Bytes :=
  (List.range k).map fun j => x / 256 ^ (k - 1 - j) % 256

/-- Modelled from the spec: the 32-byte structured address of section 3 /
section 4.4: eight big-endian 32-bit words; word 0 the layer address,
words 1-2 the tree address, word 3 the type, words 4-7 the type-specific
fields (for an OTS address: ots_address, chain_address, hash_address,
key_and_mask). -/
structure XMSS_Address where
  layer : Nat
  tree : Nat
  typ : Nat
  word4 : Nat
  word5 : Nat
  word6 : Nat
  word7 : Nat
deriving DecidableEq, Repr

namespace XMSS_Address

/-- Modelled from the spec (section 4.4): set_type zeros words 4..7. -/
def set_type (a : XMSS_Address) (t : Nat) : XMSS_Address :=
  { a with typ := t, word4 := 0, word5 := 0, word6 := 0, word7 := 0 }

/-- Modelled from the spec (section 4.4): word 4 holds the OTS address. -/
def set_ots_address (a : XMSS_Address) (i : Nat) : XMSS_Address :=
  { a with word4 := i }

/-- Modelled from the spec (section 4.4): word 5 holds the chain address. -/
def set_chain_address (a : XMSS_Address) (j : Nat) : XMSS_Address :=
  { a with word5 := j }

/-- Modelled from the spec (section 4.4): word 6 holds the hash address. -/
def set_hash_address (a : XMSS_Address) (k : Nat) : XMSS_Address :=
  { a with word6 := k }

/-- Modelled from the spec (section 4.4): word 7 holds key_and_mask
(0 = Key_Mode, 1 = Mask_Mode). -/
def set_key_mask_mode (a : XMSS_Address) (m : Nat) : XMSS_Address :=
  { a with word7 := m }

/-- Modelled from the spec (section 4.4): bytes() is the big-endian
concatenation of the eight 32-bit words (tree address spans two words). -/
def bytes (a : XMSS_Address) : Bytes :=
  toByte a.layer 4 ++ toByte a.tree 8 ++ toByte a.typ 4 ++ toByte a.word4 4 ++
    toByte a.word5 4 ++ toByte a.word6 4 ++ toByte a.word7 4

end XMSS_Address

/-- Modelled from the spec (section 4.1): the keyed hash functions of
XMSS_Hash, kept opaque: prf and f take a key/seed and an input and produce
an n-byte output; the constructions under study treat them as black boxes. -/
structure HashOps where
  prf : Bytes → Bytes → Bytes
  f : Bytes → Bytes → Bytes

/-- xor_buf(result, mask, result.size()): byte-wise xor of the mask into the
result, the result keeping its length (bytes past the mask's length are
unchanged; in every use here the two lengths agree). -/
def xorBuf (r m : Bytes) : Bytes :=
  List.zipWith Nat.xor r m ++ r.drop m.length

/-- One iteration of the loop body of XMSS_WOTS_PublicKey::chain
(xmss_wots_publickey.hpp lines 322-334): set hash_address to i, xor the
PRF bitmask (Mask_Mode) into the running value, then apply F keyed by the
PRF key (Key_Mode). -/
def chainStep (ho : HashOps) (seed : Bytes) (p : Bytes × XMSS_Address) (i : Nat) :
    Bytes × XMSS_Address :=
  let a1 := (p.2.set_hash_address i).set_key_mask_mode 1
  let x1 := xorBuf p.1 (ho.prf seed a1.bytes)
  let a2 := a1.set_key_mask_mode 0
  (ho.f (ho.prf seed a2.bytes) x1, a2)

/-- The loop of XMSS_WOTS_PublicKey::chain: index i runs from start_idx
while i < start_idx + steps and i < w; cnt counts the remaining steps. -/
def chainAux (ho : HashOps) (w : Nat) (seed : Bytes) :
    Nat → Nat → Bytes × XMSS_Address → Bytes × XMSS_Address
  | _, 0, p => p
  | i, cnt + 1, p =>
    if i < w then chainAux ho w seed (i + 1) cnt (chainStep ho seed p i) else p

/-- Algorithm 2, XMSS_WOTS_PublicKey::chain (xmss_wots_publickey.hpp lines
320-335): iterate the mask-and-F step over i in [start_idx, start_idx +
steps) clamped by i < w (the Winternitz parameter).  Returns the
transformed value together with the mutated address. -/
def chain (ho : HashOps) (w : Nat) (x : Bytes) (start_idx steps : Nat)
    (adrs : XMSS_Address) (seed : Bytes) : Bytes × XMSS_Address :=
  chainAux ho w seed start_idx steps (x, adrs)

/-- Modelled from the spec (section 3): the WOTS+ parameter set derived
from the OID: Winternitz parameter w = 2 ^ lg_w, digit counts len_1 and
len_2, element size n.  wots_parameter is the accessor name the source
uses for w. -/
structure XMSS_WOTS_Parameters where
  lg_w : Nat
  len_1 : Nat
  len_2 : Nat
  element_size : Nat
deriving DecidableEq, Repr

namespace XMSS_WOTS_Parameters

/-- The Winternitz parameter w, as returned by wots_parameter(). -/
def wots_parameter (p : XMSS_WOTS_Parameters) : Nat := 2 ^ p.lg_w

/-- len = len_1 + len_2, the WOTS+ chain count. -/
def len (p : XMSS_WOTS_Parameters) : Nat := p.len_1 + p.len_2

/-- Modelled from the spec (section 4.3): base_w unpacks a byte string X
into out_len base-w digits, reading bits from the most-significant side
(digit j collects bits j*lg_w .. j*lg_w + lg_w - 1 of X, MSB first). -/
def base_w (lgw : Nat) (X : Bytes) (out_len : Nat) : List Nat :=
  (List.range out_len).map fun j =>
    (List.range lgw).foldl
      (fun acc t => 2 * acc + X.getD ((j * lgw + t) / 8) 0 >>> (7 - (j * lgw + t) % 8) % 2)
      0

/-- Modelled from the spec (section 4.3): over the digits m_i of data the
checksum C = sum of (w - 1 - m_i); C is left-shifted by
(8 - (len_2 * lg_w mod 8)) mod 8 bits, encoded big-endian into
ceil(len_2 * lg_w / 8) bytes, unpacked by base_w into len_2 digits and
appended to data. -/
def append_checksum (p : XMSS_WOTS_Parameters) (data : List Nat) : List Nat :=
  let csum := data.foldl (fun acc d => acc + (p.wots_parameter - 1 - d)) 0
  let shift := (8 - p.len_2 * p.lg_w % 8) % 8
  let nbytes := (p.len_2 * p.lg_w + 7) / 8
  data ++ base_w p.lg_w (toByte (csum <<< shift) nbytes) p.len_2

/-- The length-len digit string b of a message: base_w of the message into
len_1 digits with the checksum digits appended. -/
def msg_digits (p : XMSS_WOTS_Parameters) (msg : Bytes) : List Nat :=
  p.append_checksum (base_w p.lg_w msg p.len_1)

end XMSS_WOTS_Parameters

/-- The loop of XMSS_WOTS_PublicKey::pub_key_from_signature
(xmss_wots_publickey.hpp lines 345-348): for index i, set the chain
address to i and replace result[i] by chain(result[i], b[i], w-1-b[i]);
the read result[i] is modelled by List.get?, so an out-of-range index
(a signature shorter than len) yields none, mirroring the absence of any
length validation in the source. -/
def pkLoop (ho : HashOps) (w : Nat) (seed : Bytes) (b : List Nat) :
    Nat → Nat → List Bytes → XMSS_Address → Option (List Bytes × XMSS_Address)
  | _, 0, res, a => some (res, a)
  | i, cnt + 1, res, a =>
    match res[i]? with
    | none => none
    | some xi =>
      let bi := b.getD i 0
      let r := chain ho w xi bi (w - 1 - bi) (a.set_chain_address i) seed
      pkLoop ho w seed b (i + 1) cnt (res.set i r.1) r.2

/-- Algorithm 6, XMSS_WOTS_PublicKey::pub_key_from_signature
(xmss_wots_publickey.hpp lines 337-350): compute the digit string b of the
message, copy the signature into result, and for each i in [0, len) set
the chain address to i and run chain(result[i], b[i], w-1-b[i]). -/
def pub_key_from_signature (ho : HashOps) (p : XMSS_WOTS_Parameters)
    (msg : Bytes) (sig : List Bytes) (adrs : XMSS_Address) (seed : Bytes) :
    Option (List Bytes) :=
  (pkLoop ho p.wots_parameter seed (p.msg_digits msg) 0 p.len sig adrs).map Prod.fst

/-- XMSS_WOTS_PublicKey (xmss_wots_publickey.hpp): the fields the claims
touch: the parameter set (standing in for m_wots_params, i.e. the OID),
the public seed and the raw key data m_key. -/
structure XMSS_WOTS_PublicKey where
  m_wots_params : XMSS_WOTS_Parameters
  m_public_seed : Bytes
  m_key : List Bytes
deriving DecidableEq, Repr

namespace XMSS_WOTS_PublicKey

/-- The equality operator of XMSS_WOTS_PublicKey (xmss_wots_publickey.hpp
lines 247-249): compares only m_key. -/
def eqOp (a b : XMSS_WOTS_PublicKey) : Bool := a.m_key == b.m_key

/-- The inequality operator (xmss_wots_publickey.hpp lines 251-253):
the negation of eqOp. -/
def neOp (a b : XMSS_WOTS_PublicKey) : Bool := !(eqOp a b)

/-- The public-key-from-signature constructor (xmss_wots_publickey.hpp
lines 148-154): m_key is set to pub_key_from_signature(msg, sig, adrs,
public_seed); none when the signature is too short for the loop's reads. -/
def fromSignature (ho : HashOps) (p : XMSS_WOTS_Parameters) (msg : Bytes)
    (sig : List Bytes) (adrs : XMSS_Address) (public_seed : Bytes) :
    Option XMSS_WOTS_PublicKey :=
  (pub_key_from_signature ho p msg sig adrs public_seed).map fun k =>
    { m_wots_params := p, m_public_seed := public_seed, m_key := k }

end XMSS_WOTS_PublicKey

/-- Modelled from the spec (section 3): the XMSS parameter data the signer
reads: element size n and the tree height h. -/
structure XMSS_Parameters where
  element_size : Nat
  tree_height : Nat
deriving DecidableEq, Repr

/-- Modelled from the spec (section 3): the XMSS private key as the signer
sees it: SK_PRF (returned by prf()), the root, the parameters, and the
monotonic leaf counter over 2 ^ tree_height leaves. -/
structure XMSS_PrivateKey where
  prf_key : Bytes
  root : Bytes
  params : XMSS_Parameters
  unused_leaf : Nat
deriving DecidableEq, Repr

/-- Modelled from the spec (section 7): the error kinds the signer
surfaces; only LeafExhausted can arise in the signing path under study. -/
inductive XMSSError where
  | leafExhausted
deriving DecidableEq, Repr

/-- Modelled from the spec (section 5 / section 7):
reserve_unused_leaf_index atomically advances the counter and returns a
never-before-returned index; with all 2 ^ h leaves used it fails with
LeafExhausted and the counter does not move. -/
def reserve_unused_leaf_index (pk : XMSS_PrivateKey) :
    Except XMSSError (Nat × XMSS_PrivateKey) :=
  if pk.unused_leaf < 2 ^ pk.params.tree_height then
    .ok (pk.unused_leaf, { pk with unused_leaf := pk.unused_leaf + 1 })
  else
    .error .leafExhausted

/-- Modelled from the spec (section 4.1): the state of the incremental
H_msg hash: the three key components passed to h_msg_init and the bytes
streamed so far. -/
structure HMsgState where
  r : Bytes
  root : Bytes
  idx : Bytes
  data : Bytes
deriving DecidableEq, Repr

/-- The opaque functions the signer consumes: prf and h_msg of XMSS_Hash
(modelled from the spec, section 4.1: h_msg keyed by r, root and the index
bytes over the streamed data), tree_hash of XMSS_PrivateKey (modelled from
the spec, sections 4.5 and 4.7: stateless in the caller's ADRS, a pure
function of the key, the start index, the target height and the address),
and the WOTS+ private key sign of the leaf addressed by the ADRS. -/
structure Env where
  prf : Bytes → Bytes → Bytes
  h_msg : Bytes → Bytes → Bytes → Bytes → Bytes
  tree_hash : XMSS_PrivateKey → Nat → Nat → XMSS_Address → Bytes
  wots_sign : XMSS_PrivateKey → Bytes → XMSS_Address → List Bytes

/-- The state of an XMSS_Signature_Operation
(xmss_signature_operation.hpp): the private key, the cached randomizer
m_randomness, the reserved leaf index m_leaf_idx, the m_is_initialized
flag, and the signer's incremental H_msg hash state (held by m_hash). -/
structure SignerState where
  m_priv_key : XMSS_PrivateKey
  m_randomness : Bytes
  m_leaf_idx : Nat
  m_is_initialized : Bool
  hmsg : HMsgState
deriving DecidableEq, Repr

/-- The constructor (xmss_signature_operation.hpp lines 86-89):
m_randomness empty, m_leaf_idx 0, m_is_initialized false. -/
def mkSigner (pk : XMSS_PrivateKey) : SignerState :=
  { m_priv_key := pk, m_randomness := [], m_leaf_idx := 0,
    m_is_initialized := false, hmsg := ⟨[], [], [], []⟩ }

/-- XMSS_Signature_Operation's private initialization step
(xmss_signature_operation.hpp lines 135-153): return unchanged if already
done; otherwise reserve a leaf index i, compute
r = PRF(SK_PRF, toByte(i, 32)), open H_msg keyed by (r, root,
toByte(i, n)), cache i and r and set the flag.  A reservation failure is
surfaced before any state is written. -/
def initializeOp (env : Env) (s : SignerState) : Except XMSSError SignerState :=
  if s.m_is_initialized then .ok s
  else
    match reserve_unused_leaf_index s.m_priv_key with
    | .error e => .error e
    | .ok (i, pk) =>
      let r := env.prf pk.prf_key (toByte i 32)
      .ok { m_priv_key := pk, m_randomness := r, m_leaf_idx := i,
            m_is_initialized := true,
            hmsg := ⟨r, pk.root, toByte i pk.params.element_size, []⟩ }

/-- XMSS_Signature_Operation::update (xmss_signature_operation.hpp lines
123-126): initialize, then stream the bytes into H_msg. -/
def update (env : Env) (s : SignerState) (msg : Bytes) :
    Except XMSSError SignerState :=
  (initializeOp env s).map fun t =>
    { t with hmsg := { t.hmsg with data := t.hmsg.data ++ msg } }

/-- XMSS_Signature_Operation::build_auth_path (xmss_signature_operation.hpp
lines 111-121): set the address type to Hash_Tree_Address (type 2) and for
each level j in [0, tree_height) take
tree_hash((m_leaf_idx / 2^j xor 1) * 2^j, j, adrs). -/
def build_auth_path (env : Env) (s : SignerState) (adrs : XMSS_Address) :
    List Bytes × XMSS_Address :=
  let a := adrs.set_type 2
  ((List.range s.m_priv_key.params.tree_height).map fun j =>
      env.tree_hash s.m_priv_key (((s.m_leaf_idx / 2 ^ j) ^^^ 1) * 2 ^ j) j a,
    a)

/-- Algorithm 11, XMSS_Signature_Operation::generate_tree_signature
(xmss_signature_operation.hpp lines 91-102): build the auth path, reset
the address to an OTS address (type 0) at m_leaf_idx, and produce the
WOTS+ signature; returns (ots signature, auth path). -/
def generate_tree_signature (env : Env) (s : SignerState) (msg : Bytes)
    (adrs : XMSS_Address) : List Bytes × List Bytes :=
  let ba := build_auth_path env s adrs
  let a2 := (ba.2.set_type 0).set_ots_address s.m_leaf_idx
  (env.wots_sign s.m_priv_key msg a2, ba.1)

/-- Algorithm 12 plus serialization: the private sign overload
(xmss_signature_operation.hpp lines 104-109) builds
XMSS_Signature(m_leaf_idx, m_randomness, generate_tree_signature(...))
from a zero address; its bytes() (modelled from the spec, section 3) are
toByte(i, 4) followed by r, the concatenated WOTS+ signature and the
concatenated auth path. -/
def xmss_sign_bytes (env : Env) (s : SignerState) (msg_hash : Bytes) : Bytes :=
  let ts := generate_tree_signature env s msg_hash ⟨0, 0, 0, 0, 0, 0, 0⟩
  toByte s.m_leaf_idx 4 ++ s.m_randomness ++ ts.1.flatten ++ ts.2.flatten

/-- The result of finalizing the incremental H_msg stream. -/
def h_msg_final (env : Env) (hm : HMsgState) : Bytes :=
  env.h_msg hm.r hm.root hm.idx hm.data

/-- XMSS_Signature_Operation::sign(rng) (xmss_signature_operation.hpp
lines 128-133): initialize (a no-op when already initialized), finalize
H_msg, compute and serialize the XMSS signature, clear the
m_is_initialized flag, and return the bytes.  The rng argument is
accepted and never read. -/
def signOp {R : Type} (env : Env) (s : SignerState) (_rng : R) :
    Except XMSSError (Bytes × SignerState) :=
  match initializeOp env s with
  | .error e => .error e
  | .ok t =>
    .ok (xmss_sign_bytes env t (h_msg_final env t.hmsg),
         { t with m_is_initialized := false })

/-- Two addresses that agree on every field except hash_address (word 6)
and key_and_mask (word 7): the chain loop overwrites those two before any
use, so its output value cannot depend on them. -/
def ChainCompat (a b : XMSS_Address) : Prop :=
  a.layer = b.layer ∧ a.tree = b.tree ∧ a.typ = b.typ ∧
    a.word4 = b.word4 ∧ a.word5 = b.word5

/-- Two addresses that agree on every field except chain_address (word 5),
hash_address (word 6) and key_and_mask (word 7): the per-chain loop of
pub_key_from_signature overwrites word 5 (and chain overwrites 6 and 7)
before any use. -/
def PkCompat (a b : XMSS_Address) : Prop :=
  a.layer = b.layer ∧ a.tree = b.tree ∧ a.typ = b.typ ∧ a.word4 = b.word4

/-! Concrete instances used to evaluate the theorems at explicit inputs. -/

/-- A concrete toy hash pair: prf collapses its address input to one byte,
f concatenates. -/
def hoW : HashOps :=
  { prf := fun _ a => [(a.foldl (· + ·) 0) % 256], f := fun k x => k ++ x }

/-- A concrete OTS address. -/
def adrsW : XMSS_Address := ⟨0, 0, 0, 7, 3, 0, 0⟩

/-- adrsW with stale hash_address and key_and_mask words. -/
def adrsW2 : XMSS_Address := ⟨0, 0, 0, 7, 3, 9, 1⟩

/-- A concrete tiny WOTS+ parameter set: w = 4, len_1 = 2, len_2 = 1. -/
def paramsW : XMSS_WOTS_Parameters := ⟨2, 2, 1, 1⟩

/-- A concrete environment for the signer: prf returns a fixed two-byte
randomizer, h_msg and tree_hash and wots_sign are simple total
functions. -/
def envW : Env :=
  { prf := fun _ _ => [7, 7],
    h_msg := fun r _ _ d => r ++ d,
    tree_hash := fun _ s t _ => [s % 256, t % 256],
    wots_sign := fun _ m _ => [m.take 1] }

/-- A concrete private key on a height-2 tree. -/
def privW : XMSS_PrivateKey :=
  { prf_key := [1, 1], root := [2, 2], params := ⟨2, 2⟩, unused_leaf := 0 }

/-- privW with every leaf used. -/
def privExhausted : XMSS_PrivateKey := { privW with unused_leaf := 4 }

/-- The signer state reached from mkSigner privW by update(envW, [1]):
leaf 0 reserved, randomizer [7, 7] cached, H_msg opened and fed one
byte. -/
def signerW : SignerState :=
  { m_priv_key := { privW with unused_leaf := 1 },
    m_randomness := [7, 7], m_leaf_idx := 0, m_is_initialized := true,
    hmsg := ⟨[7, 7], [2, 2], [0, 0], [1]⟩ }

/-! Lemmas about the chaining function. -/

/-- Once the clamp index is reached the loop performs no step. -/
theorem chainAux_of_ge (ho : HashOps) (w : Nat) (seed : Bytes) (i cnt : Nat)
    (p : Bytes × XMSS_Address) (h : w ≤ i) :
    chainAux ho w seed i cnt p = p := by
  cases cnt with
  | zero => rfl
  | succ n => simp [chainAux, Nat.not_lt.mpr h]

/-- The chain loop is the fold of the step over exactly the indices of
[i, i + cnt) that are below the clamp w. -/
theorem chainAux_eq_foldl (ho : HashOps) (w : Nat) (seed : Bytes) :
    ∀ (cnt i : Nat) (p : Bytes × XMSS_Address),
      chainAux ho w seed i cnt p =
        ((List.range' i cnt).filter (fun j => decide (j < w))).foldl
          (chainStep ho seed) p := by
  intro cnt
  induction cnt with
  | zero => intro i p; simp [chainAux]
  | succ n ih =>
    intro i p
    rw [show (List.range' i (n + 1)) = i :: List.range' (i + 1) n from
      List.range'_succ i n 1]
    by_cases h : i < w
    · rw [List.filter_cons_of_pos (by simpa using h)]
      simp only [List.foldl_cons]
      rw [show chainAux ho w seed i (n + 1) p =
            chainAux ho w seed (i + 1) n (chainStep ho seed p i) by
          simp [chainAux, h]]
      exact ih (i + 1) (chainStep ho seed p i)
    · rw [List.filter_cons_of_neg (by simpa using h)]
      rw [List.filter_eq_nil_iff.mpr (fun j hj => by
        have hm := List.mem_range'_1.mp hj
        simp only [decide_eq_true_eq]
        omega)]
      simp [chainAux_of_ge ho w seed i (n + 1) p (Nat.not_lt.mp h)]

/-- Splitting the chain loop: running m + n steps from index i equals
running m steps, then n steps from index i + m, whatever the clamp does. -/
theorem chainAux_add (ho : HashOps) (w : Nat) (seed : Bytes) :
    ∀ (m n i : Nat) (p : Bytes × XMSS_Address),
      chainAux ho w seed i (m + n) p =
        chainAux ho w seed (i + m) n (chainAux ho w seed i m p) := by
  intro m
  induction m with
  | zero => intro n i p; simp [chainAux]
  | succ k ih =>
    intro n i p
    by_cases h : i < w
    · rw [show k + 1 + n = (k + n) + 1 by omega]
      rw [show chainAux ho w seed i (k + n + 1) p =
            chainAux ho w seed (i + 1) (k + n) (chainStep ho seed p i) by
          simp [chainAux, h]]
      rw [show chainAux ho w seed i (k + 1) p =
            chainAux ho w seed (i + 1) k (chainStep ho seed p i) by
          simp [chainAux, h]]
      rw [ih n (i + 1) (chainStep ho seed p i)]
      congr 1
      omega
    · have hge := Nat.not_lt.mp h
      rw [chainAux_of_ge ho w seed i (k + 1 + n) p hge,
        chainAux_of_ge ho w seed i (k + 1) p hge,
        chainAux_of_ge ho w seed (i + (k + 1)) n p (by omega)]

theorem chainCompat_refl (a : XMSS_Address) : ChainCompat a a :=
  ⟨rfl, rfl, rfl, rfl, rfl⟩

theorem chainCompat_trans {a b c : XMSS_Address} (h1 : ChainCompat a b)
    (h2 : ChainCompat b c) : ChainCompat a c := by
  obtain ⟨x1, x2, x3, x4, x5⟩ := h1
  obtain ⟨y1, y2, y3, y4, y5⟩ := h2
  exact ⟨x1.trans y1, x2.trans y2, x3.trans y3, x4.trans y4, x5.trans y5⟩

theorem chainCompat_symm {a b : XMSS_Address} (h : ChainCompat a b) :
    ChainCompat b a := by
  obtain ⟨x1, x2, x3, x4, x5⟩ := h
  exact ⟨x1.symm, x2.symm, x3.symm, x4.symm, x5.symm⟩

/-- A chain step run from two compatible addresses produces identical
results: the step sets hash_address and key_and_mask before reading. -/
theorem chainStep_compat (ho : HashOps) (seed : Bytes) (x : Bytes)
    {a b : XMSS_Address} (hc : ChainCompat a b) (i : Nat) :
    chainStep ho seed (x, a) i = chainStep ho seed (x, b) i := by
  obtain ⟨h1, h2, h3, h4, h5⟩ := hc
  cases a
  cases b
  simp only at h1 h2 h3 h4 h5
  subst h1 h2 h3 h4 h5
  rfl

/-- The step only writes words 6 and 7 of the address. -/
theorem chainStep_chainCompat (ho : HashOps) (seed : Bytes)
    (p : Bytes × XMSS_Address) (i : Nat) :
    ChainCompat p.2 (chainStep ho seed p i).2 :=
  ⟨rfl, rfl, rfl, rfl, rfl⟩

/-- The resulting value of the chain loop does not depend on the incoming
hash_address and key_and_mask words. -/
theorem chainAux_fst_compat (ho : HashOps) (w : Nat) (seed : Bytes) :
    ∀ (cnt i : Nat) (x : Bytes) {a b : XMSS_Address}, ChainCompat a b →
      (chainAux ho w seed i cnt (x, a)).1 = (chainAux ho w seed i cnt (x, b)).1 := by
  intro cnt
  induction cnt with
  | zero => intro i x a b _; rfl
  | succ n ih =>
    intro i x a b hc
    by_cases h : i < w
    · rw [show chainAux ho w seed i (n + 1) (x, a) =
            chainAux ho w seed (i + 1) n (chainStep ho seed (x, a) i) by
          simp [chainAux, h]]
      rw [show chainAux ho w seed i (n + 1) (x, b) =
            chainAux ho w seed (i + 1) n (chainStep ho seed (x, b) i) by
          simp [chainAux, h]]
      rw [chainStep_compat ho seed x hc i]
    · rw [chainAux_of_ge ho w seed i (n + 1) (x, a) (Nat.not_lt.mp h),
        chainAux_of_ge ho w seed i (n + 1) (x, b) (Nat.not_lt.mp h)]

/-- The chain loop only writes words 6 and 7 of the address. -/
theorem chainAux_chainCompat (ho : HashOps) (w : Nat) (seed : Bytes) :
    ∀ (cnt i : Nat) (p : Bytes × XMSS_Address),
      ChainCompat p.2 (chainAux ho w seed i cnt p).2 := by
  intro cnt
  induction cnt with
  | zero => intro i p; exact chainCompat_refl p.2
  | succ n ih =>
    intro i p
    by_cases h : i < w
    · rw [show chainAux ho w seed i (n + 1) p =
            chainAux ho w seed (i + 1) n (chainStep ho seed p i) by
          simp [chainAux, h]]
      exact chainCompat_trans (chainStep_chainCompat ho seed p i)
        (ih (i + 1) (chainStep ho seed p i))
    · rw [chainAux_of_ge ho w seed i (n + 1) p (Nat.not_lt.mp h)]
      exact chainCompat_refl p.2

/-- C2: chain(x, start, steps, ADRS, SEED) performs the mask-and-F step
exactly for the indices i in [start, start + steps) that satisfy i < w
(the Winternitz parameter), so the loop halts at i = w - 1 when
start + steps exceeds w - 1; and when start + steps is at most w - 1
every step of the range executes. -/
theorem chain_steps_clamped (ho : HashOps) (w : Nat) (x : Bytes)
    (start steps : Nat) (adrs : XMSS_Address) (seed : Bytes) :
    chain ho w x start steps adrs seed =
      ((List.range' start steps).filter (fun j => decide (j < w))).foldl
        (chainStep ho seed) (x, adrs)
    ∧ (start + steps ≤ w - 1 →
        chain ho w x start steps adrs seed =
          (List.range' start steps).foldl (chainStep ho seed) (x, adrs)) := by
  refine ⟨chainAux_eq_foldl ho w seed steps start (x, adrs), fun h => ?_⟩
  rw [chain, chainAux_eq_foldl ho w seed steps start (x, adrs),
    List.filter_eq_self.mpr]
  intro j hj
  have hm := List.mem_range'_1.mp hj
  simp only [decide_eq_true_eq]
  omega

/-- C2 witness: with w = 4, start = 1 and steps = 2 the clamped fold and
the full fold agree with the loop on a concrete input. -/
theorem chain_steps_clamped_witness :
    chain hoW 4 [5] 1 2 adrsW [0] =
      ((List.range' 1 2).filter (fun j => decide (j < 4))).foldl
        (chainStep hoW [0]) ([5], adrsW)
    ∧ (1 + 2 ≤ 4 - 1 →
        chain hoW 4 [5] 1 2 adrsW [0] =
          (List.range' 1 2).foldl (chainStep hoW [0]) ([5], adrsW)) :=
  chain_steps_clamped hoW 4 [5] 1 2 adrsW [0]

/-- C4: chain composition.  For a ≤ b ≤ w - 1, chaining b steps from 0
equals chaining a steps from 0 and then b - a steps from a, where the
address supplied to the second call may differ from the first call's in
hash_address and key_and_mask only (the words the first call mutated),
carrying the same OTS and chain context. -/
theorem chain_composition (ho : HashOps) (w : Nat) (x seed : Bytes)
    (a b : Nat) (adrs adrs2 : XMSS_Address)
    (hab : a ≤ b) (_hbw : b ≤ w - 1) (hc : ChainCompat adrs adrs2) :
    (chain ho w x 0 b adrs seed).1 =
      (chain ho w (chain ho w x 0 a adrs seed).1 a (b - a) adrs2 seed).1 := by
  have hb : b = a + (b - a) := by omega
  have hsplit := chainAux_add ho w seed a (b - a) 0 (x, adrs)
  have hLHS : chain ho w x 0 b adrs seed =
      chainAux ho w seed a (b - a) (chainAux ho w seed 0 a (x, adrs)) := by
    rw [chain, hb, hsplit, Nat.zero_add, Nat.add_sub_cancel_left]
  set q := chainAux ho w seed 0 a (x, adrs) with hq
  have hcompat : ChainCompat q.2 adrs2 :=
    chainCompat_trans
      (chainCompat_symm (chainAux_chainCompat ho w seed a 0 (x, adrs))) hc
  calc (chain ho w x 0 b adrs seed).1
      = (chainAux ho w seed a (b - a) (q.1, q.2)).1 := by rw [hLHS]
    _ = (chainAux ho w seed a (b - a) (q.1, adrs2)).1 :=
        chainAux_fst_compat ho w seed (b - a) a q.1 hcompat
    _ = (chain ho w (chain ho w x 0 a adrs seed).1 a (b - a) adrs2 seed).1 :=
        rfl

/-- C4 witness: composition at w = 4, a = 1, b = 3, evaluated with the
second call starting from an address with stale hash_address and
key_and_mask words. -/
theorem chain_composition_witness :
    (chain hoW 4 [5] 0 3 adrsW [0]).1 =
      (chain hoW 4 (chain hoW 4 [5] 0 1 adrsW [0]).1 1 (3 - 1) adrsW2 [0]).1 :=
  chain_composition hoW 4 [5] [0] 1 3 adrsW adrsW2 (by decide) (by decide)
    ⟨rfl, rfl, rfl, rfl, rfl⟩

/-! Lemmas about the loop of pub_key_from_signature. -/

theorem pkCompat_refl (a : XMSS_Address) : PkCompat a a := ⟨rfl, rfl, rfl, rfl⟩

theorem pkCompat_trans {a b c : XMSS_Address} (h1 : PkCompat a b)
    (h2 : PkCompat b c) : PkCompat a c := by
  obtain ⟨x1, x2, x3, x4⟩ := h1
  obtain ⟨y1, y2, y3, y4⟩ := h2
  exact ⟨x1.trans y1, x2.trans y2, x3.trans y3, x4.trans y4⟩

theorem pkCompat_of_chainCompat {a b : XMSS_Address} (h : ChainCompat a b) :
    PkCompat a b :=
  ⟨h.1, h.2.1, h.2.2.1, h.2.2.2.1⟩

/-- Setting the chain address to a common value turns PkCompat addresses
into ChainCompat ones. -/
theorem set_chain_address_chainCompat {a b : XMSS_Address}
    (h : PkCompat a b) (i : Nat) :
    ChainCompat (a.set_chain_address i) (b.set_chain_address i) :=
  ⟨h.1, h.2.1, h.2.2.1, h.2.2.2, rfl⟩

/-- set_chain_address only writes word 5. -/
theorem set_chain_address_pkCompat (a : XMSS_Address) (i : Nat) :
    PkCompat (a.set_chain_address i) a := ⟨rfl, rfl, rfl, rfl⟩

/-- The per-chain loop of pub_key_from_signature, run from an address
PkCompat to a reference address a0, returns (when every read is in
bounds) a list of unchanged length whose entries outside the processed
range are untouched, and whose entry j in the range equals the chain of
the original entry with the chain address set to j on a0: the residual
chain_address, hash_address and key_and_mask words left by earlier
iterations do not influence any value. -/
theorem pkLoop_sound (ho : HashOps) (w : Nat) (seed : Bytes) (b : List Nat)
    (a0 : XMSS_Address) :
    ∀ (cnt i : Nat) (res : List Bytes) (a : XMSS_Address), PkCompat a a0 →
      i + cnt ≤ res.length →
      ∃ res2 a2, pkLoop ho w seed b i cnt res a = some (res2, a2) ∧
        res2.length = res.length ∧
        (∀ j, j < i ∨ i + cnt ≤ j → res2[j]? = res[j]?) ∧
        (∀ j, i ≤ j → j < i + cnt →
          res2[j]? = some (chain ho w (res.getD j []) (b.getD j 0)
            (w - 1 - b.getD j 0) (a0.set_chain_address j) seed).1) := by
  intro cnt
  induction cnt with
  | zero =>
    intro i res a _ _
    exact ⟨res, a, rfl, rfl, fun j _ => rfl, fun j h1 h2 => absurd h2 (by omega)⟩
  | succ n ih =>
    intro i res a hc hlen
    have hi : i < res.length := by omega
    have hget : res[i]? = some res[i] := List.getElem?_eq_getElem hi
    set bi := b.getD i 0 with hbi
    set r := chain ho w res[i] bi (w - 1 - bi) (a.set_chain_address i) seed
      with hr
    have hunfold : pkLoop ho w seed b i (n + 1) res a =
        pkLoop ho w seed b (i + 1) n (res.set i r.1) r.2 := by
      rw [pkLoop, hget]
    have hcomp2 : PkCompat r.2 a0 := by
      have h1 : ChainCompat (a.set_chain_address i) r.2 :=
        chainAux_chainCompat ho w seed (w - 1 - bi) bi (res[i], a.set_chain_address i)
      exact pkCompat_trans
        (pkCompat_trans (pkCompat_of_chainCompat (chainCompat_symm h1))
          (set_chain_address_pkCompat a i)) hc
    obtain ⟨res2, a2, heq, hlen2, hframe, hvals⟩ :=
      ih (i + 1) (res.set i r.1) r.2 hcomp2 (by simpa using by omega)
    refine ⟨res2, a2, hunfold.trans heq, by simpa using hlen2, ?_, ?_⟩
    · intro j hj
      have hne : i ≠ j := by omega
      have : res2[j]? = (res.set i r.1)[j]? :=
        hframe j (by omega)
      rw [this, List.getElem?_set_ne hne]
    · intro j hj1 hj2
      rcases Nat.eq_or_lt_of_le hj1 with hji | hji
      · cases hji
        have h1 : res2[i]? = (res.set i r.1)[i]? := hframe i (by omega)
        have hgd : res.getD i [] = res[i] := by
          rw [List.getD_eq_getElem?_getD, hget]; rfl
        rw [h1, List.getElem?_set_self hi, hgd]
        have hcc := set_chain_address_chainCompat hc i
        exact congrArg some
          (chainAux_fst_compat ho w seed (w - 1 - bi) bi res[i] hcc)
      · have hne : i ≠ j := by omega
        have hgd : (res.set i r.1).getD j [] = res.getD j [] := by
          rw [List.getD_eq_getElem?_getD, List.getD_eq_getElem?_getD,
            List.getElem?_set_ne hne]
        have h1 := hvals j (by omega) (by omega)
        rw [hgd] at h1
        exact h1

/-- When the signature list is shorter than the loop bound the read at
index length is out of bounds and the loop yields none. -/
theorem pkLoop_none (ho : HashOps) (w : Nat) (seed : Bytes) (b : List Nat) :
    ∀ (cnt i : Nat) (res : List Bytes) (a : XMSS_Address),
      i ≤ res.length → res.length < i + cnt →
      pkLoop ho w seed b i cnt res a = none := by
  intro cnt
  induction cnt with
  | zero => intro i res a h1 h2; omega
  | succ n ih =>
    intro i res a h1 h2
    by_cases hi : i < res.length
    · have hget : res[i]? = some res[i] := List.getElem?_eq_getElem hi
      rw [pkLoop, hget]
      exact ih (i + 1) _ _ (by simpa using hi) (by simpa using by omega)
    · have hget : res[i]? = none := List.getElem?_eq_none (by omega)
      rw [pkLoop, hget]

/-- C3: pub_key_from_signature(msg, sig, ADRS, SEED) on a length-len
signature computes the digit string b = base_w(msg, len_1) with the
checksum digits appended (msg_digits), and returns the length-len sequence
whose element j is chain(sig[j], b[j], w - 1 - b[j], ADRS, SEED) with the
chain address of ADRS set to j before the chain call (the hash_address,
key_and_mask and chain_address words left over from earlier iterations do
not influence element j). -/
theorem pub_key_from_signature_spec (ho : HashOps) (p : XMSS_WOTS_Parameters)
    (msg : Bytes) (adrs : XMSS_Address) (seed : Bytes) (sig : List Bytes)
    (hsig : sig.length = p.len) :
    ∃ r, pub_key_from_signature ho p msg sig adrs seed = some r ∧
      r.length = p.len ∧
      ∀ j, j < p.len →
        r[j]? = some (chain ho p.wots_parameter (sig.getD j [])
          ((p.msg_digits msg).getD j 0)
          (p.wots_parameter - 1 - (p.msg_digits msg).getD j 0)
          (adrs.set_chain_address j) seed).1 := by
  obtain ⟨res2, a2, heq, hlen, _, hvals⟩ :=
    pkLoop_sound ho p.wots_parameter seed (p.msg_digits msg) adrs p.len 0 sig
      adrs (pkCompat_refl adrs) (by omega)
  refine ⟨res2, ?_, by omega, fun j hj => hvals j (by omega) (by omega)⟩
  rw [pub_key_from_signature, heq]
  rfl

/-- C3 witness: a length-3 signature for the tiny parameter set w = 4,
len_1 = 2, len_2 = 1. -/
theorem pub_key_from_signature_spec_witness :
    ∃ r, pub_key_from_signature hoW paramsW [27] [[1], [2], [3]] adrsW [0] =
        some r ∧
      r.length = paramsW.len ∧
      ∀ j, j < paramsW.len →
        r[j]? = some (chain hoW paramsW.wots_parameter
          ([[1], [2], [3]].getD j [])
          ((paramsW.msg_digits [27]).getD j 0)
          (paramsW.wots_parameter - 1 - (paramsW.msg_digits [27]).getD j 0)
          (adrsW.set_chain_address j) [0]).1 :=
  pub_key_from_signature_spec hoW paramsW [27] adrsW [0] [[1], [2], [3]]
    (by decide)

/-- C9: pub_key_from_signature and the public-key-from-signature
constructor validate nothing about the signature's length: when sig holds
at least len elements every indexed read is in bounds and a result is
produced, and when sig holds fewer than len elements the out-of-bounds
read is reached and the embedding returns none (no
InvalidSignatureLength error exists at this layer). -/
theorem pub_key_from_signature_no_validation (ho : HashOps)
    (p : XMSS_WOTS_Parameters) (msg : Bytes) (adrs : XMSS_Address)
    (seed : Bytes) :
    (∀ sig : List Bytes, p.len ≤ sig.length →
      (pub_key_from_signature ho p msg sig adrs seed).isSome = true) ∧
    (∀ sig : List Bytes, sig.length < p.len →
      pub_key_from_signature ho p msg sig adrs seed = none) ∧
    (∀ sig : List Bytes, sig.length < p.len →
      XMSS_WOTS_PublicKey.fromSignature ho p msg sig adrs seed = none) := by
  have hnone : ∀ sig : List Bytes, sig.length < p.len →
      pub_key_from_signature ho p msg sig adrs seed = none := by
    intro sig hlt
    rw [pub_key_from_signature,
      pkLoop_none ho p.wots_parameter seed (p.msg_digits msg) p.len 0 sig adrs
        (by omega) (by omega)]
    rfl
  refine ⟨fun sig hge => ?_, hnone, fun sig hlt => ?_⟩
  · obtain ⟨res2, a2, heq, -, -, -⟩ :=
      pkLoop_sound ho p.wots_parameter seed (p.msg_digits msg) adrs p.len 0 sig
        adrs (pkCompat_refl adrs) (by omega)
    rw [pub_key_from_signature, heq]
    rfl
  · rw [XMSS_WOTS_PublicKey.fromSignature, hnone sig hlt]
    rfl

/-- C10: equality of XMSS_WOTS_PublicKey objects compares only the raw key
data m_key: the operator returns true exactly when the two key_data
sequences are equal, whatever the seeds and parameter sets, and the
inequality operator is its exact negation. -/
theorem pk_eq_only_key (k1 k2 : XMSS_WOTS_PublicKey) :
    (XMSS_WOTS_PublicKey.eqOp k1 k2 = true ↔ k1.m_key = k2.m_key) ∧
    XMSS_WOTS_PublicKey.neOp k1 k2 = !XMSS_WOTS_PublicKey.eqOp k1 k2 ∧
    ∀ (p1 p2 : XMSS_WOTS_Parameters) (s1 s2 : Bytes) (k : List Bytes),
      XMSS_WOTS_PublicKey.eqOp ⟨p1, s1, k⟩ ⟨p2, s2, k⟩ = true := by
  refine ⟨?_, rfl, fun p1 p2 s1 s2 k => ?_⟩
  · simp [XMSS_WOTS_PublicKey.eqOp]
  · simp [XMSS_WOTS_PublicKey.eqOp]

/-- C5: build_auth_path returns a sequence of exactly tree_height nodes
whose element j is tree_hash((floor(i / 2^j) xor 1) * 2^j, j, ADRS), the
address having been set to type Hash_Tree_Address (type 2). -/
theorem build_auth_path_spec (env : Env) (s : SignerState)
    (adrs : XMSS_Address) :
    (build_auth_path env s adrs).1.length = s.m_priv_key.params.tree_height ∧
    ∀ j, j < s.m_priv_key.params.tree_height →
      (build_auth_path env s adrs).1[j]? =
        some (env.tree_hash s.m_priv_key
          (((s.m_leaf_idx / 2 ^ j) ^^^ 1) * 2 ^ j) j (adrs.set_type 2)) := by
  constructor
  · simp [build_auth_path]
  · intro j hj
    simp [build_auth_path, List.getElem?_map, List.getElem?_range hj]

/-- C5 witness: the auth path of the concrete signer over a height-2
tree. -/
theorem build_auth_path_spec_witness :
    (build_auth_path envW signerW adrsW).1.length =
      signerW.m_priv_key.params.tree_height ∧
    ∀ j, j < signerW.m_priv_key.params.tree_height →
      (build_auth_path envW signerW adrsW).1[j]? =
        some (envW.tree_hash signerW.m_priv_key
          (((signerW.m_leaf_idx / 2 ^ j) ^^^ 1) * 2 ^ j) j (adrsW.set_type 2)) :=
  build_auth_path_spec envW signerW adrsW

/-! Claims about the signer state machine. -/

/-- C6: the initialization step is idempotent within one signing cycle:
already initialized it returns the state unchanged; otherwise it reserves
the next leaf index i, computes r = PRF(SK_PRF, toByte(i, 32)), opens the
incremental H_msg with key (r, root, toByte(i, n)) where n is the
parameter element size, caches i and r, and sets the flag. -/
theorem initializeOp_spec (env : Env) (s : SignerState) :
    (s.m_is_initialized = true → initializeOp env s = .ok s) ∧
    (s.m_is_initialized = false →
      s.m_priv_key.unused_leaf < 2 ^ s.m_priv_key.params.tree_height →
      initializeOp env s = .ok
        { m_priv_key :=
            { s.m_priv_key with unused_leaf := s.m_priv_key.unused_leaf + 1 },
          m_randomness :=
            env.prf s.m_priv_key.prf_key (toByte s.m_priv_key.unused_leaf 32),
          m_leaf_idx := s.m_priv_key.unused_leaf,
          m_is_initialized := true,
          hmsg :=
            ⟨env.prf s.m_priv_key.prf_key (toByte s.m_priv_key.unused_leaf 32),
              s.m_priv_key.root,
              toByte s.m_priv_key.unused_leaf s.m_priv_key.params.element_size,
              []⟩ }) := by
  constructor
  · intro h
    simp [initializeOp, h]
  · intro h hres
    simp [initializeOp, h, reserve_unused_leaf_index, hres]

/-- C6 witness: the two branches evaluated on a fresh signer over a
height-2 tree. -/
theorem initializeOp_spec_witness :
    ((mkSigner privW).m_is_initialized = true →
      initializeOp envW (mkSigner privW) = .ok (mkSigner privW)) ∧
    ((mkSigner privW).m_is_initialized = false →
      (mkSigner privW).m_priv_key.unused_leaf <
        2 ^ (mkSigner privW).m_priv_key.params.tree_height →
      initializeOp envW (mkSigner privW) = .ok
        { m_priv_key :=
            { (mkSigner privW).m_priv_key with
                unused_leaf := (mkSigner privW).m_priv_key.unused_leaf + 1 },
          m_randomness :=
            envW.prf (mkSigner privW).m_priv_key.prf_key
              (toByte (mkSigner privW).m_priv_key.unused_leaf 32),
          m_leaf_idx := (mkSigner privW).m_priv_key.unused_leaf,
          m_is_initialized := true,
          hmsg :=
            ⟨envW.prf (mkSigner privW).m_priv_key.prf_key
                (toByte (mkSigner privW).m_priv_key.unused_leaf 32),
              (mkSigner privW).m_priv_key.root,
              toByte (mkSigner privW).m_priv_key.unused_leaf
                (mkSigner privW).m_priv_key.params.element_size,
              []⟩ }) :=
  initializeOp_spec envW (mkSigner privW)

/-- C7: when reserve_unused_leaf_index fails with LeafExhausted on an
uninitialized signer, the error is surfaced, no signature bytes are
produced, the caller's state is unchanged (the embedding returns only the
error), so the flag is still false and any later sign attempt on it fails
the same way. -/
theorem initializeOp_exhausted (env : Env) (s : SignerState) (rng : Nat)
    (h : s.m_is_initialized = false)
    (hex : 2 ^ s.m_priv_key.params.tree_height ≤ s.m_priv_key.unused_leaf) :
    initializeOp env s = .error .leafExhausted ∧
    signOp env s rng = .error .leafExhausted ∧
    (∀ rng2 : Nat, signOp env s rng2 = .error .leafExhausted) ∧
    s.m_is_initialized = false := by
  have hinit : initializeOp env s = .error .leafExhausted := by
    simp [initializeOp, h, reserve_unused_leaf_index, Nat.not_lt.mpr hex]
  exact ⟨hinit, by simp [signOp, hinit], fun rng2 => by simp [signOp, hinit], h⟩

/-- C7 witness: a fresh signer over an exhausted height-2 key. -/
theorem initializeOp_exhausted_witness :
    initializeOp envW (mkSigner privExhausted) = .error .leafExhausted ∧
    signOp envW (mkSigner privExhausted) 0 = .error .leafExhausted ∧
    (∀ rng2 : Nat,
      signOp envW (mkSigner privExhausted) rng2 = .error .leafExhausted) ∧
    (mkSigner privExhausted).m_is_initialized = false :=
  initializeOp_exhausted envW (mkSigner privExhausted) 0 rfl (by decide)

/-- C8: sign(rng) never draws from its RandomNumberGenerator argument:
two runs from the same signer state (the private key state and the bytes
fed through update are part of that state) with any two rng values, even
of different types, return identical results byte for byte. -/
theorem signOp_rng_independent {R1 R2 : Type} (env : Env) (s : SignerState)
    (rng1 : R1) (rng2 : R2) :
    signOp env s rng1 = signOp env s rng2 := rfl

/-- C1 (amended): on a signer on which update() has been called, sign(rng)
finalizes H_msg to the message hash, computes the XMSS signature,
serializes it as toByte(i, 4), then the randomizer r = m_randomness, then
the WOTS+ signature and auth path, resets the initialized flag to false
and returns the bytes; the randomizer buffer m_randomness is NOT zeroized:
after sign() returns it still holds exactly the randomness r embedded in
the emitted signature. -/
theorem signOp_after_update (env : Env) (s : SignerState) (rng : Nat)
    (h : s.m_is_initialized = true) :
    signOp env s rng = .ok
      (toByte s.m_leaf_idx 4 ++ s.m_randomness ++
        (generate_tree_signature env s (h_msg_final env s.hmsg)
          ⟨0, 0, 0, 0, 0, 0, 0⟩).1.flatten ++
        (generate_tree_signature env s (h_msg_final env s.hmsg)
          ⟨0, 0, 0, 0, 0, 0, 0⟩).2.flatten,
       { s with m_is_initialized := false }) ∧
    ({ s with m_is_initialized := false } : SignerState).m_randomness =
      s.m_randomness := by
  have hinit : initializeOp env s = .ok s := by simp [initializeOp, h]
  exact ⟨by simp [signOp, hinit, xmss_sign_bytes], rfl⟩

/-- C1 witness: the amended behaviour evaluated on the concrete state
reached by update(envW, [1]) from a fresh signer. -/
theorem signOp_after_update_witness :
    signOp envW signerW 0 = .ok
      (toByte signerW.m_leaf_idx 4 ++ signerW.m_randomness ++
        (generate_tree_signature envW signerW (h_msg_final envW signerW.hmsg)
          ⟨0, 0, 0, 0, 0, 0, 0⟩).1.flatten ++
        (generate_tree_signature envW signerW (h_msg_final envW signerW.hmsg)
          ⟨0, 0, 0, 0, 0, 0, 0⟩).2.flatten,
       { signerW with m_is_initialized := false }) ∧
    ({ signerW with m_is_initialized := false } : SignerState).m_randomness =
      signerW.m_randomness :=
  signOp_after_update envW signerW 0 rfl

/-- C1 counterexample: the claim's zeroization clause is false on the
code.  From a fresh signer over privW, update(envW, [1]) reaches signerW
with randomizer r = [7, 7]; sign returns the serialized signature (whose
bytes 4 and 5 are exactly r) and a state whose m_randomness still equals
[7, 7] — the buffer is not zeroized and still contains every byte of the
randomness used in the emitted signature. -/
theorem signOp_keeps_randomness_cex :
    update envW (mkSigner privW) [1] = .ok signerW ∧
    signOp envW signerW 0 =
      .ok ([0, 0, 0, 0, 7, 7, 7, 1, 0, 2, 1],
        { signerW with m_is_initialized := false }) ∧
    ({ signerW with m_is_initialized := false } : SignerState).m_randomness =
      [7, 7] ∧
    ([7, 7] : Bytes) ≠ [] := by
  refine ⟨rfl, rfl, rfl, by decide⟩

end XMSSEmbed
